import Mathlib

/-!
Verification of the ArtistGrid bot core pipeline (src/main.py): CSV row
normalization (`parse_csv_row`), Google-Sheets URL rewriting
(`GOOGLE_SHEETS_RE`), fetching (`fetch_csv`), chunked delivery
(`send_paginated_response`) and the two slash-command orchestrators
(`search`, `list_trackers`).

Strings are modelled as `List Char` (one element per Unicode code point,
matching Python's `len`/indexing on `str`).  Dictionary rows are modelled
as a structure of `Option (List Char)` fields: `none` means the CSV row
lacks that column, so that a Python `KeyError` on field access becomes a
`none` result of the translated function.
-/

namespace ArtistGridBot

/-- The blank-line separator appended after each formatted record
(`line + "\n\n"` in `send_paginated_response`). -/
def sep : List Char := "\n\n".toList

/-- Python `str.lower`, per character. -/
def lowerL (s : List Char) : List Char := s.map Char.toLower

/-- Python `str.strip`: drop whitespace from both ends. -/
def trimL (s : List Char) : List Char :=
  ((s.dropWhile Char.isWhitespace).reverse.dropWhile Char.isWhitespace).reverse

/-- The star glyph used to decorate "best" artists. -/
def starL : List Char := "⭐".toList

/-- A character of the regex class `[a-zA-Z0-9-_]` in `GOOGLE_SHEETS_RE`. -/
def idChar (c : Char) : Bool := c.isAlpha || c.isDigit || c == '-' || c == '_'

/-- The literal part of `GOOGLE_SHEETS_RE` before the 44-character id group. -/
def sheetsLinkHead : List Char := "https://docs.google.com/spreadsheets/d/".toList

/-- The rewritten short-link base `https://trackerhub.cx/sh/`. -/
def shLinkHead : List Char := "https://trackerhub.cx/sh/".toList

/-- The URL rewrite performed in `parse_csv_row`: `GOOGLE_SHEETS_RE.match(url)`
(`re.match` anchors at the start of the string: the literal head followed by
exactly 44 characters of `idChar`, trailing text ignored) and, on a match,
replacement of the whole URL by `shLinkHead ++ id`. -/
def rewriteUrl (url : List Char) : List Char :=
  if sheetsLinkHead <+: url then
    let t := url.drop sheetsLinkHead.length
    if (t.take 44).length = 44 ∧ (t.take 44).all idChar = true then
      shLinkHead ++ t.take 44
    else url
  else url

/-- Name decoration in `parse_csv_row`:
`if row["Best"].strip().lower() == "yes": artist_name = f"⭐{artist_name}⭐"`. -/
def decorateName (best name : List Char) : List Char :=
  if lowerL (trimL best) = "yes".toList then starL ++ name ++ starL else name

/-- One CSV row as a dict; `none` marks a missing column (Python `KeyError`). -/
structure RawRow where
  artistName : Option (List Char)
  best : Option (List Char)
  url : Option (List Char)
  credit : Option (List Char)
  linksWork : Option (List Char)
  updated : Option (List Char)
deriving DecidableEq

/-- Function `parse_csv_row`: formats one row as the 4-line Discord message block, or
`none` when a required field is missing (Python raises `KeyError`). -/
def parse_csv_row (row : RawRow) : Option (List Char) :=
  match row.artistName, row.best, row.url, row.credit, row.linksWork, row.updated with
  | some name, some b, some u, some c, some lw, some upd =>
      some ("[".toList ++ decorateName b name ++ "](".toList ++ rewriteUrl u
        ++ ")\ncredit: (".toList ++ c ++ ")\nLinks work: ".toList ++ lw
        ++ "\nUpdated: ".toList ++ upd)
  | _, _, _, _, _, _ => none

/-- All six required columns are present in the row. -/
def rowComplete (r : RawRow) : Bool :=
  r.artistName.isSome && r.best.isSome && r.url.isSome
    && r.credit.isSome && r.linksWork.isSome && r.updated.isSome

/-- The formatted block of a (complete) row. -/
def fmtRow (r : RawRow) : List Char := (parse_csv_row r).getD []

/-- The chunking loop of `send_paginated_response`: `current` is the
accumulator string; sealing happens before the record is appended when
`len(current_chunk) + len(line) + 2 > chunk_size`. -/
def chunkLoop (chunk_size : Nat) (current : List Char) :
    List (List Char) → List (List Char)
  | [] => if current = [] then [] else [current]
  | line :: rest =>
    if chunk_size < current.length + line.length + 2 then
      current :: chunkLoop chunk_size (line ++ sep) rest
    else
      chunkLoop chunk_size (current ++ line ++ sep) rest

/-- Function `send_paginated_response` (the chunk construction part): split the
formatted records into message chunks of at most `chunk_size` characters. -/
def send_paginated_response (lines : List (List Char)) (chunk_size : Nat) :
    List (List Char) :=
  chunkLoop chunk_size [] lines

/-- A chunk made of the complete blocks `ls`, each with its separator. -/
def glue (ls : List (List Char)) : List Char :=
  (ls.map (fun l => l ++ sep)).flatten

/-- The list comprehension of the `search` command:
`[parse_csv_row(row) for row in data if artist_lower in row["Artist Name"].lower()]`.
Every row's name is consulted (so a row without the name column fails the
whole comprehension), and every matching row is formatted. -/
def searchCollect (artist_lower : List Char) : List RawRow → Option (List (List Char))
  | [] => some []
  | row :: rest =>
    match row.artistName with
    | none => none
    | some name =>
      if artist_lower <:+: lowerL name then
        match parse_csv_row row, searchCollect artist_lower rest with
        | some f, some tail => some (f :: tail)
        | _, _ => none
      else
        searchCollect artist_lower rest

/-- The `results` value of the `search` command: the comprehension above,
sliced with `[:5]`. -/
def searchResults (data : List RawRow) (artist : List Char) :
    Option (List (List Char)) :=
  (searchCollect (lowerL artist) data).map (fun rs => rs.take 5)

/-- The `results` value of the `list` command:
`[parse_csv_row(row) for row in data]`. -/
def listResults : List RawRow → Option (List (List Char))
  | [] => some []
  | row :: rest =>
    match parse_csv_row row, listResults rest with
    | some f, some tail => some (f :: tail)
    | _, _ => none

/-- The message of the exception raised by `fetch_csv` on a non-200 status. -/
def fetchErrMsg (status : Nat) : List Char :=
  "Failed to fetch CSV: HTTP ".toList ++ (Nat.repr status).toList

/-- Function `fetch_csv`, as a function of the HTTP response status and of the rows the
payload parses to: raises (returns `Except.error`) exactly on a non-200
status, otherwise returns the parsed rows. -/
def fetch_csv (status : Nat) (rows : List RawRow) : Except (List Char) (List RawRow) :=
  if status ≠ 200 then Except.error (fetchErrMsg status) else Except.ok rows

/-- Spec-side definition (for comparison only), following the spec's words
"non-success status": the HTTP success class, statuses 200–299. -/
def httpSuccess (status : Nat) : Bool := 200 ≤ status && status < 300

/-- Constant `ALLOWED_GUILD_ID` from the source. -/
def ALLOWED_GUILD_ID : Nat := 1395824457527988377

/-- The fixed scope-rejection message. -/
def scopeMsg : List Char :=
  "This command can only be used in the authorized server.".toList

/-- The `search` command's empty-result message
`f"No results found for \x27{artist}\x27."`. -/
def noResultsMsg (artist : List Char) : List Char :=
  "No results found for \x27".toList ++ artist ++ "\x27.".toList

/-- The observable outcome of one slash-command invocation: whether the CSV
fetch was performed, the texts handed to the delivery capability in order,
and whether an exception escaped the handler. -/
structure Outcome where
  fetched : Bool
  sent : List (List Char)
  raised : Bool
deriving DecidableEq

/-- The `search` slash command, as a function of the caller's guild id, of
the outcome of `fetch_csv`, and of the query: guild gate, fetch, filter,
then no-result message or paginated chunks.  A `none` from the row
processing models the uncaught `KeyError` escaping the handler. -/
def search (guild_id : Option Nat) (fetched_csv : Except (List Char) (List RawRow))
    (artist : List Char) : Outcome :=
  if guild_id ≠ some ALLOWED_GUILD_ID then
    ⟨false, [scopeMsg], false⟩
  else
    match fetched_csv with
    | Except.error e => ⟨true, [e], false⟩
    | Except.ok data =>
      match searchResults data artist with
      | none => ⟨true, [], true⟩
      | some [] => ⟨true, [noResultsMsg artist], false⟩
      | some results => ⟨true, send_paginated_response results 1800, false⟩

/-- The `list` slash command (`list_trackers`), analogous to `search` but
formatting every row with no filter and no limit. -/
def list_trackers (guild_id : Option Nat)
    (fetched_csv : Except (List Char) (List RawRow)) : Outcome :=
  if guild_id ≠ some ALLOWED_GUILD_ID then
    ⟨false, [scopeMsg], false⟩
  else
    match fetched_csv with
    | Except.error e => ⟨true, [e], false⟩
    | Except.ok data =>
      match listResults data with
      | none => ⟨true, [], true⟩
      | some [] => ⟨true, ["No trackers found.".toList], false⟩
      | some results => ⟨true, send_paginated_response results 1800, false⟩

/-- The search filter predicate on one row, as a Boolean: the lowered query
occurs in the lowered raw (un-decorated) artist name. -/
def rowMatches (ql : List Char) (r : RawRow) : Bool :=
  match r.artistName with
  | some name => decide (ql <:+: lowerL name)
  | none => false

/-- A complete example row whose name matches the query "ali". -/
def aliceRow : RawRow :=
  ⟨some "Alice".toList, some "yes".toList, some "url1".toList,
   some "cr1".toList, some "yes".toList, some "2024".toList⟩

/-- A complete example row whose name does not match the query "ali". -/
def bobRow : RawRow :=
  ⟨some "Bob".toList, some "no".toList, some "url2".toList,
   some "cr2".toList, some "no".toList, some "2023".toList⟩

/-- An example row missing the "Best" column. -/
def incompleteRow : RawRow :=
  ⟨some "Bob".toList, none, some "u".toList,
   some "c".toList, some "y".toList, some "d".toList⟩

/-- A complete example row. -/
def completeRow : RawRow :=
  ⟨some "Alice".toList, some "no".toList, some "u2".toList,
   some "c2".toList, some "y2".toList, some "d2".toList⟩

/-- An example row missing the "Artist Name" column. -/
def noNameRow : RawRow :=
  ⟨none, some "yes".toList, some "u".toList,
   some "c".toList, some "y".toList, some "d".toList⟩

/-! Helper lemmas -/

theorem sep_length : sep.length = 2 := rfl

theorem chunkLoop_flatten (chunk_size : Nat) :
    ∀ (lines : List (List Char)) (current : List Char),
      (chunkLoop chunk_size current lines).flatten
        = current ++ (lines.map (fun l => l ++ sep)).flatten := by
  intro lines
  induction lines with
  | nil =>
    intro current
    by_cases hc : current = [] <;>
      simp [chunkLoop, hc]
  | cons line rest ih =>
    intro current
    by_cases h : chunk_size < current.length + line.length + 2 <;>
      simp [chunkLoop, h, ih]

theorem chunkLoop_bound (chunk_size : Nat) (W : List Char → Prop) :
    ∀ (lines : List (List Char)) (current : List Char),
      (∀ l ∈ lines, W l) →
      (current.length ≤ chunk_size ∨
        ∃ l, W l ∧ current = l ++ sep ∧ chunk_size < l.length + 2) →
      ∀ c ∈ chunkLoop chunk_size current lines,
        c.length ≤ chunk_size ∨
          ∃ l, W l ∧ c = l ++ sep ∧ chunk_size < l.length + 2 := by
  intro lines
  induction lines with
  | nil =>
    intro current _ hcur c hc
    by_cases h : current = []
    · simp [chunkLoop, h] at hc
    · simp [chunkLoop, h] at hc
      exact hc ▸ hcur
  | cons line rest ih =>
    intro current hW hcur c hc
    have hWrest : ∀ l ∈ rest, W l := fun l hl => hW l (List.mem_cons_of_mem _ hl)
    have hWline : W line := hW line (List.mem_cons_self _ _)
    by_cases h : chunk_size < current.length + line.length + 2
    · simp only [chunkLoop, if_pos h, List.mem_cons] at hc
      rcases hc with hc | hc
      · exact hc ▸ hcur
      · refine ih (line ++ sep) hWrest ?_ c hc
        by_cases hbig : chunk_size < line.length + 2
        · exact Or.inr ⟨line, hWline, rfl, hbig⟩
        · left
          simp only [List.length_append, sep_length]
          omega
    · simp only [chunkLoop, if_neg h] at hc
      refine ih (current ++ line ++ sep) hWrest ?_ c hc
      left
      simp only [List.length_append, sep_length]
      omega

theorem chunkLoop_whole_blocks (chunk_size : Nat) (W : List Char → Prop) :
    ∀ (lines : List (List Char)) (current : List Char),
      (∀ l ∈ lines, W l) →
      (∃ ls, current = glue ls ∧ ∀ l ∈ ls, W l) →
      ∀ c ∈ chunkLoop chunk_size current lines,
        ∃ ls, c = glue ls ∧ ∀ l ∈ ls, W l := by
  intro lines
  induction lines with
  | nil =>
    intro current _ hcur c hc
    by_cases h : current = []
    · simp [chunkLoop, h] at hc
    · simp [chunkLoop, h] at hc
      exact hc ▸ hcur
  | cons line rest ih =>
    intro current hW hcur c hc
    have hWrest : ∀ l ∈ rest, W l := fun l hl => hW l (List.mem_cons_of_mem _ hl)
    have hWline : W line := hW line (List.mem_cons_self _ _)
    have hsingle : ∃ ls, line ++ sep = glue ls ∧ ∀ l ∈ ls, W l := by
      refine ⟨[line], by simp [glue], ?_⟩
      intro l hl
      simp at hl
      exact hl ▸ hWline
    by_cases h : chunk_size < current.length + line.length + 2
    · simp only [chunkLoop, if_pos h, List.mem_cons] at hc
      rcases hc with hc | hc
      · exact hc ▸ hcur
      · exact ih (line ++ sep) hWrest hsingle c hc
    · simp only [chunkLoop, if_neg h] at hc
      refine ih (current ++ line ++ sep) hWrest ?_ c hc
      obtain ⟨ls, hg, hWls⟩ := hcur
      refine ⟨ls ++ [line], ?_, ?_⟩
      · simp [glue, hg, List.append_assoc]
      · intro l hl
        simp at hl
        rcases hl with hl | hl
        · exact hWls l hl
        · exact hl ▸ hWline

theorem chunkLoop_oversized_head (chunk_size : Nat) (current : List Char)
    (hbig : chunk_size < current.length) :
    ∀ rest, ∃ t, chunkLoop chunk_size current rest = current :: t := by
  intro rest
  cases rest with
  | nil =>
    have hne : current ≠ [] := by
      intro h
      rw [h] at hbig
      simp at hbig
    exact ⟨[], by simp [chunkLoop, hne]⟩
  | cons l2 r2 =>
    have h : chunk_size < current.length + l2.length + 2 := by omega
    exact ⟨chunkLoop chunk_size (l2 ++ sep) r2, by simp [chunkLoop, h]⟩

/-! Claim theorems for the chunking component -/

/-- C2: concatenating in order all chunks produced by `send_paginated_response`
yields exactly the join of the records in input order, each followed by its
blank-line separator: the chunking loses, duplicates, truncates and reorders
nothing. -/
theorem chunk_concat_complete (lines : List (List Char)) (chunk_size : Nat) :
    (send_paginated_response lines chunk_size).flatten
      = (lines.map (fun l => l ++ sep)).flatten := by
  simp [send_paginated_response, chunkLoop_flatten]

/-- C6: every chunk produced by `send_paginated_response` has length at most
`chunk_size`, except a chunk that is a single record with its separator whose
formatted length exceeds `chunk_size`; moreover every chunk is a concatenation
of whole record blocks of the input (no record is split across chunks). -/
theorem chunk_size_invariant (lines : List (List Char)) (chunk_size : Nat)
    (c : List Char) (hc : c ∈ send_paginated_response lines chunk_size) :
    (c.length ≤ chunk_size ∨
      ∃ l, l ∈ lines ∧ c = l ++ sep ∧ chunk_size < l.length + 2) ∧
    (∃ ls, c = glue ls ∧ ∀ l ∈ ls, l ∈ lines) := by
  constructor
  · have := chunkLoop_bound chunk_size (fun l => l ∈ lines) lines []
      (fun _ h => h) (Or.inl (by simp)) c hc
    rcases this with h | ⟨l, hl, he, hb⟩
    · exact Or.inl h
    · exact Or.inr ⟨l, hl, he, hb⟩
  · exact chunkLoop_whole_blocks chunk_size (fun l => l ∈ lines) lines []
      (fun _ h => h) ⟨[], by simp [glue], by simp⟩ c hc

/-- Witness for C6 on a concrete input. -/
theorem chunk_size_invariant_witness :
    ("ab\n\n".toList ∈ send_paginated_response ["ab".toList] 10) ∧
    (("ab\n\n".toList : List Char).length ≤ 10 ∨
      ∃ l, l ∈ ["ab".toList] ∧ "ab\n\n".toList = l ++ sep ∧ 10 < l.length + 2) ∧
    (∃ ls, "ab\n\n".toList = glue ls ∧ ∀ l ∈ ls, l ∈ ["ab".toList]) := by
  refine ⟨by decide, ?_⟩
  exact chunk_size_invariant ["ab".toList] 10 "ab\n\n".toList (by decide)

/-- C10: when the first record (with its 2-character separator) exceeds
`chunk_size`, the empty accumulator is sealed before the record is placed, so
`send_paginated_response` emits an empty chunk immediately followed by the
oversized record's own chunk. -/
theorem empty_chunk_before_oversized (chunk_size : Nat) (line : List Char)
    (rest : List (List Char)) (hbig : chunk_size < line.length + 2) :
    ∃ t, send_paginated_response (line :: rest) chunk_size
      = [] :: (line ++ sep) :: t := by
  have h0 : chunk_size < ([] : List Char).length + line.length + 2 := by
    simpa using hbig
  have hover : chunk_size < (line ++ sep).length := by
    simp only [List.length_append, sep_length]
    omega
  obtain ⟨t, ht⟩ := chunkLoop_oversized_head chunk_size (line ++ sep) hover rest
  exact ⟨t, by simp [send_paginated_response, chunkLoop, hbig, ht]⟩

/-- Witness for C10 on a concrete input. -/
theorem empty_chunk_before_oversized_witness :
    3 < ("abcd".toList : List Char).length + 2 ∧
    ∃ t, send_paginated_response ["abcd".toList] 3
      = [] :: ("abcd".toList ++ sep) :: t :=
  ⟨by decide, empty_chunk_before_oversized 3 "abcd".toList [] (by decide)⟩

/-! Normalizer claim theorems: URL rewrite and name decoration -/

theorem rewriteUrl_eq (url : List Char) :
    rewriteUrl url =
      if sheetsLinkHead <+: url then
        if ((url.drop sheetsLinkHead.length).take 44).length = 44 ∧
            ((url.drop sheetsLinkHead.length).take 44).all idChar = true then
          shLinkHead ++ (url.drop sheetsLinkHead.length).take 44
        else url
      else url := rfl

/-- C4: a URL starting with the Google-Sheets head followed by 44 id
characters (anything may follow) is rewritten to the short link carrying the
44-character id, the trailing text dropped; every URL admitting no such
decomposition is returned unchanged, character for character. -/
theorem url_rewrite_spec (url : List Char) :
    (∀ id rest, url = sheetsLinkHead ++ (id ++ rest) → id.length = 44 →
      id.all idChar = true → rewriteUrl url = shLinkHead ++ id) ∧
    ((∀ id rest, url = sheetsLinkHead ++ (id ++ rest) →
        ¬(id.length = 44 ∧ id.all idChar = true)) → rewriteUrl url = url) := by
  constructor
  · intro id rest heq hlen hall
    subst heq
    have hp : sheetsLinkHead <+: sheetsLinkHead ++ (id ++ rest) :=
      List.prefix_append _ _
    have hdrop : (sheetsLinkHead ++ (id ++ rest)).drop sheetsLinkHead.length
        = id ++ rest := List.drop_left _ _
    have htake : (id ++ rest).take 44 = id := by
      rw [← hlen]
      exact List.take_left _ _
    rw [rewriteUrl_eq, if_pos hp, hdrop, htake, if_pos ⟨hlen, hall⟩]
  · intro hno
    by_cases hp : sheetsLinkHead <+: url
    · obtain ⟨t, ht⟩ := hp
      have hdrop : url.drop sheetsLinkHead.length = t := by
        rw [← ht]
        exact List.drop_left _ _
      have hcond := hno (t.take 44) (t.drop 44)
        (by rw [List.take_append_drop]; exact ht.symm)
      rw [rewriteUrl_eq, if_pos ⟨t, ht⟩, hdrop, if_neg hcond]
    · rw [rewriteUrl_eq, if_neg hp]

/-- Witness for C4: a matching URL with trailing text is rewritten; a
non-matching URL is unchanged. -/
theorem url_rewrite_spec_witness :
    rewriteUrl (sheetsLinkHead ++ (List.replicate 44 'a' ++ "/edit".toList))
      = shLinkHead ++ List.replicate 44 'a' ∧
    rewriteUrl "https://example.com".toList = "https://example.com".toList := by
  constructor
  · exact (url_rewrite_spec _).1 (List.replicate 44 'a') "/edit".toList rfl
      (by decide) (by decide)
  · refine (url_rewrite_spec _).2 ?_
    intro id rest heq
    have hp : sheetsLinkHead <+: "https://example.com".toList := ⟨id ++ rest, heq.symm⟩
    exact absurd hp.length_le (by decide)

/-- C5: the normalizer wraps the artist name in the star marker on both sides
exactly when the best flag, trimmed and lowercased, is "yes"; otherwise the
name is left unchanged. -/
theorem decoration_spec (best name : List Char) :
    (decorateName best name = starL ++ name ++ starL ↔
      lowerL (trimL best) = "yes".toList) ∧
    (lowerL (trimL best) ≠ "yes".toList → decorateName best name = name) := by
  by_cases h : lowerL (trimL best) = "yes".toList
  · refine ⟨⟨fun _ => h, fun _ => ?_⟩, fun hc => absurd h hc⟩
    rw [decorateName, if_pos h]
  · refine ⟨⟨?_, fun hc => absurd hc h⟩, fun _ => ?_⟩
    · intro heq
      rw [decorateName, if_neg h] at heq
      have hlen := congrArg List.length heq
      rw [List.length_append, List.length_append] at hlen
      have hstar : starL.length = 1 := rfl
      exfalso
      omega
    · rw [decorateName, if_neg h]

/-- Witness for C5: a trimmed, case-insensitive "yes" decorates, "maybe"
does not. -/
theorem decoration_spec_witness :
    decorateName " YES ".toList "Alice".toList
      = starL ++ "Alice".toList ++ starL ∧
    decorateName "maybe".toList "Bob".toList = "Bob".toList :=
  ⟨(decoration_spec " YES ".toList "Alice".toList).1.mpr (by decide),
   (decoration_spec "maybe".toList "Bob".toList).2 (by decide)⟩

/-! Row parsing and search claim theorems -/

theorem parse_csv_row_complete (r : RawRow) (h : rowComplete r = true) :
    parse_csv_row r = some (fmtRow r) := by
  obtain ⟨a, b, u, c, lw, up⟩ := r
  cases a <;> cases b <;> cases u <;> cases c <;> cases lw <;> cases up <;>
    first
      | rfl
      | simp [rowComplete] at h

theorem parse_csv_row_incomplete (r : RawRow) (h : rowComplete r = false) :
    parse_csv_row r = none := by
  obtain ⟨a, b, u, c, lw, up⟩ := r
  cases a <;> cases b <;> cases u <;> cases c <;> cases lw <;> cases up <;>
    first
      | rfl
      | simp [rowComplete] at h

theorem searchCollect_eq (ql : List Char) (data : List RawRow)
    (h : ∀ r ∈ data, rowComplete r = true) :
    searchCollect ql data = some ((data.filter (rowMatches ql)).map fmtRow) := by
  induction data with
  | nil => rfl
  | cons row rest ih =>
    have hrow : rowComplete row = true := h row (List.mem_cons_self _ _)
    have hrest : ∀ r ∈ rest, rowComplete r = true :=
      fun r hr => h r (List.mem_cons_of_mem _ hr)
    have has : row.artistName.isSome = true := by
      rw [rowComplete] at hrow
      exact (Bool.and_eq_true _ _ |>.mp
        ((Bool.and_eq_true _ _ |>.mp ((Bool.and_eq_true _ _ |>.mp
          ((Bool.and_eq_true _ _ |>.mp ((Bool.and_eq_true _ _ |>.mp hrow).1)).1)).1)).1)).1
    obtain ⟨name, hname⟩ := Option.isSome_iff_exists.mp has
    by_cases hm : ql <:+: lowerL name
    · have hmatch : rowMatches ql row = true := by simp [rowMatches, hname, hm]
      simp [searchCollect, hname, hm, parse_csv_row_complete row hrow, ih hrest,
        List.filter_cons, hmatch]
    · have hmatch : rowMatches ql row = false := by simp [rowMatches, hname, hm]
      simp [searchCollect, hname, hm, ih hrest, List.filter_cons, hmatch]

/-- C1: on a dataset of well-formed rows, the search returns exactly the first
at most 5 rows whose raw (un-decorated) artist name contains the query
case-insensitively, formatted in dataset order; the result has length at
most 5. -/
theorem search_filter_spec (data : List RawRow) (artist : List Char)
    (h : ∀ r ∈ data, rowComplete r = true) :
    searchResults data artist
      = some (((data.filter (rowMatches (lowerL artist))).take 5).map fmtRow) ∧
    ∀ out, searchResults data artist = some out → out.length ≤ 5 := by
  have hcoll := searchCollect_eq (lowerL artist) data h
  constructor
  · simp [searchResults, hcoll, List.map_take]
  · intro out hout
    rw [searchResults, hcoll] at hout
    have hto : ((data.filter (rowMatches (lowerL artist))).map fmtRow).take 5
        = out := by simpa using hout
    rw [← hto]
    exact List.length_take_le _ _

/-- Witness for C1 on a concrete two-row dataset. -/
theorem search_filter_spec_witness :
    searchResults [aliceRow, bobRow] "ali".toList
      = some ((([aliceRow, bobRow].filter
          (rowMatches (lowerL "ali".toList))).take 5).map fmtRow) :=
  (search_filter_spec [aliceRow, bobRow] "ali".toList (by decide)).1

theorem listResults_none (data : List RawRow) (r : RawRow) (hmem : r ∈ data)
    (hbad : rowComplete r = false) : listResults data = none := by
  induction data with
  | nil => simp at hmem
  | cons row rest ih =>
    rcases List.mem_cons.mp hmem with hh | hh
    · subst hh
      simp [listResults, parse_csv_row_incomplete r hbad]
    · have hrest := ih hh
      cases hp : parse_csv_row row <;> simp [listResults, hp, hrest]

theorem searchCollect_missing_name (ql : List Char) (data : List RawRow)
    (r : RawRow) (hmem : r ∈ data) (hnone : r.artistName = none) :
    searchCollect ql data = none := by
  induction data with
  | nil => simp at hmem
  | cons row rest ih =>
    rcases List.mem_cons.mp hmem with hh | hh
    · subst hh
      simp [searchCollect, hnone]
    · have hrest := ih hh
      cases hname : row.artistName with
      | none => simp [searchCollect, hname]
      | some name =>
        by_cases hm : ql <:+: lowerL name
        · cases hp : parse_csv_row row <;>
            simp [searchCollect, hname, hm, hp, hrest]
        · simp [searchCollect, hname, hm, hrest]

/-- C3 counterexample: on a dataset with one row missing the "Best" column
followed by one well-formed row, the listing does not skip the malformed row
and deliver the rest — the row processing error escapes (`raised = true`) and
nothing at all is delivered (`sent = []`). -/
theorem malformed_row_not_skipped_ce :
    rowComplete incompleteRow = false ∧ rowComplete completeRow = true ∧
    list_trackers (some ALLOWED_GUILD_ID)
        (Except.ok [incompleteRow, completeRow])
      = ⟨true, [], true⟩ := by decide

/-- C3 amended: a row missing a required field is never skipped: it aborts the
whole listing.  `listResults` fails on any dataset containing such a row, the
`list` command delivers nothing and the error escapes; the `search` command
does the same whenever the malformed row is missing the artist-name column
(a row missing only another column aborts `search` when it matches the
query). -/
theorem malformed_row_aborts (data : List RawRow) (r : RawRow)
    (artist : List Char) (hmem : r ∈ data) (hbad : rowComplete r = false) :
    listResults data = none ∧
    list_trackers (some ALLOWED_GUILD_ID) (Except.ok data) = ⟨true, [], true⟩ ∧
    (r.artistName = none →
      searchResults data artist = none ∧
      search (some ALLOWED_GUILD_ID) (Except.ok data) artist
        = ⟨true, [], true⟩) := by
  have hlist := listResults_none data r hmem hbad
  refine ⟨hlist, by simp [list_trackers, hlist], ?_⟩
  intro hnone
  have hs : searchResults data artist = none := by
    simp [searchResults,
      searchCollect_missing_name (lowerL artist) data r hmem hnone]
  exact ⟨hs, by simp [search, hs]⟩

/-- Witness for the amended C3 on a concrete one-row dataset. -/
theorem malformed_row_aborts_witness :
    noNameRow ∈ [noNameRow] ∧ rowComplete noNameRow = false ∧
    listResults [noNameRow] = none ∧
    searchResults [noNameRow] "x".toList = none := by
  have h := malformed_row_aborts [noNameRow] noNameRow "x".toList
    (by decide) (by decide)
  exact ⟨by decide, by decide, h.1, (h.2.2 rfl).1⟩

/-! Orchestrator claim theorems: fetch failures and scope -/

/-- C7: when the fetch fails — in particular on any non-200 HTTP status —
both commands hand exactly one chunk, the fetch error message, to the
delivery capability, and no exception escapes the handler. -/
theorem fetch_failure_single_chunk (e artist : List Char) (status : Nat)
    (rows : List RawRow) (hstatus : status ≠ 200) :
    search (some ALLOWED_GUILD_ID) (Except.error e) artist
      = ⟨true, [e], false⟩ ∧
    list_trackers (some ALLOWED_GUILD_ID) (Except.error e)
      = ⟨true, [e], false⟩ ∧
    search (some ALLOWED_GUILD_ID) (fetch_csv status rows) artist
      = ⟨true, [fetchErrMsg status], false⟩ ∧
    list_trackers (some ALLOWED_GUILD_ID) (fetch_csv status rows)
      = ⟨true, [fetchErrMsg status], false⟩ := by
  have hf : fetch_csv status rows = Except.error (fetchErrMsg status) := by
    simp [fetch_csv, hstatus]
  refine ⟨?_, ?_, ?_, ?_⟩ <;> simp [search, list_trackers, hf]

/-- Witness for C7 at HTTP status 500. -/
theorem fetch_failure_single_chunk_witness :
    search (some ALLOWED_GUILD_ID) (fetch_csv 500 []) "q".toList
      = ⟨true, [fetchErrMsg 500], false⟩ ∧
    list_trackers (some ALLOWED_GUILD_ID) (fetch_csv 500 [])
      = ⟨true, [fetchErrMsg 500], false⟩ := by
  have h := fetch_failure_single_chunk (fetchErrMsg 500) "q".toList 500 []
    (by decide)
  exact ⟨h.2.2.1, h.2.2.2⟩

/-- C8 counterexample: HTTP 204 is in the success class (2xx), yet
`fetch_csv` fails on it — so "for every success-status response the fetch
does not fail" is false of the code, which succeeds only on 200. -/
theorem fetch_success_claim_ce :
    httpSuccess 204 = true ∧
    fetch_csv 204 [] = Except.error (fetchErrMsg 204) :=
  ⟨rfl, by simp [fetch_csv]⟩

/-- C8 amended: `fetch_csv` fails, with an error message carrying the
response status, exactly when the status is not 200; every 200 response
yields the parsed rows. -/
theorem fetch_status_spec (status : Nat) (rows : List RawRow) :
    (status ≠ 200 →
      fetch_csv status rows = Except.error (fetchErrMsg status) ∧
      (Nat.repr status).toList <:+ fetchErrMsg status) ∧
    (status = 200 → fetch_csv status rows = Except.ok rows) := by
  constructor
  · intro h
    refine ⟨by simp [fetch_csv, h], ?_⟩
    simp only [fetchErrMsg]
    exact List.suffix_append _ _
  · intro h
    simp [fetch_csv, h]

/-- Witness for the amended C8 at statuses 500 and 200. -/
theorem fetch_status_spec_witness :
    fetch_csv 500 [] = Except.error (fetchErrMsg 500) ∧
    fetch_csv 200 [] = Except.ok [] :=
  ⟨((fetch_status_spec 500 []).1 (by decide)).1, (fetch_status_spec 200 []).2 rfl⟩

/-- C9: a request from outside the allowed guild is rejected with the fixed
scope message, the fetch never runs, no exception escapes, and the outcome is
the same whatever the remote dataset would have returned. -/
theorem scope_rejection (guild_id : Option Nat)
    (fetched_csv : Except (List Char) (List RawRow)) (artist : List Char)
    (h : guild_id ≠ some ALLOWED_GUILD_ID) :
    search guild_id fetched_csv artist = ⟨false, [scopeMsg], false⟩ ∧
    list_trackers guild_id fetched_csv = ⟨false, [scopeMsg], false⟩ := by
  constructor <;> simp [search, list_trackers, h]

/-- Witness for C9: a direct-message request (no guild) is rejected. -/
theorem scope_rejection_witness :
    search none (Except.ok [aliceRow]) "q".toList
      = ⟨false, [scopeMsg], false⟩ ∧
    list_trackers none (Except.ok [aliceRow]) = ⟨false, [scopeMsg], false⟩ :=
  scope_rejection none (Except.ok [aliceRow]) "q".toList (by simp)

end ArtistGridBot
